import Mathlib

/-!
Shallow embedding of the sneaker identification and price resolution
pipeline of bot.py, together with theorems settling the specification
claims about it.  External effects (OCR, the vision API, the catalog
HTTP API, the image download) are modelled as oracles supplied to the
embedded functions; the pure decision logic is translated line by line
from the source.
-/

/-- Python truthiness of an optional string: None and the empty string
are falsy, every other string is truthy. -/
def optTruthy : Option String → Bool
  | none => false
  | some s => decide (s ≠ "")

/-- Characters matched by the regex class [A-Z0-9]. -/
def isClassChar (c : Char) : Bool := c.isUpper || c.isDigit

/-- Word characters in the sense of the regex metacharacter \b
(ASCII letters, digits and the underscore). -/
def isWordChar (c : Char) : Bool := c.isAlphanum || c == '_'

/-- Substring containment on character lists, the semantics of the
Python operator in applied to strings. -/
def containsSub (pat : List Char) : List Char → Bool
  | [] => pat.isEmpty
  | c :: rest => pat.isPrefixOf (c :: rest) || containsSub pat rest

/-- Python needle in hay on strings. -/
def pyIn (needle hay : String) : Bool := containsSub needle.toList hay.toList

/-- Worker for Python str.replace: the counter records how many
characters of an already emitted replacement remain to be skipped. -/
def pyReplaceAux (pat rep : List Char) : Nat → List Char → List Char
  | _, [] => []
  | 0, c :: rest =>
    if !pat.isEmpty && pat.isPrefixOf (c :: rest) then
      rep ++ pyReplaceAux pat rep (pat.length - 1) rest
    else
      c :: pyReplaceAux pat rep 0 rest
  | k + 1, _ :: rest => pyReplaceAux pat rep k rest

/-- Python str.replace on character lists (non-overlapping, leftmost,
all occurrences). -/
def pyReplace (pat rep s : List Char) : List Char := pyReplaceAux pat rep 0 s

/-- Python s.replace(pat, rep) on strings. -/
def pyReplaceStr (s pat rep : String) : String :=
  ⟨ pyReplace pat.toList rep.toList s.toList ⟩

/-- Python str.strip with no argument: drop whitespace at both ends. -/
def pyStrip (s : String) : String :=
  ⟨ ((s.toList.dropWhile Char.isWhitespace).reverse.dropWhile Char.isWhitespace).reverse ⟩

/-- Worker for Python str.split with no argument: split on whitespace
runs, discarding empty pieces.  The accumulator holds the current word
reversed. -/
def pyWordsAux : List Char → List Char → List (List Char)
  | acc, [] => if acc.isEmpty then [] else [acc.reverse]
  | acc, c :: rest =>
    if c.isWhitespace then
      if acc.isEmpty then pyWordsAux [] rest else acc.reverse :: pyWordsAux [] rest
    else
      pyWordsAux (c :: acc) rest

/-- Python s.split() on strings. -/
def pySplit (s : String) : List String := (pyWordsAux [] s.toList).map fun l => ⟨ l ⟩

/-- Lowercasing as used by Python str.lower on the ASCII inputs the
pipeline handles. -/
def pyLower (s : String) : String := ⟨ s.toList.map Char.toLower ⟩

/-- A JSON scalar as it can appear in a catalog record field. -/
inductive ApiVal
  | null
  | num (n : Int)
  | str (s : String)
deriving DecidableEq

/-- Python truthiness of a JSON scalar. -/
def ApiVal.truthy : ApiVal → Bool
  | .null => false
  | .num n => decide (n ≠ 0)
  | .str s => decide (s ≠ "")

/-- Python str() of a JSON scalar, as interpolated into a price string. -/
def ApiVal.pyStr : ApiVal → String
  | .null => "None"
  | .num n => toString n
  | .str s => s

/-- A catalog result record, keeping exactly the fields read by
_format_sneaker_info.  A field is none when the key is absent from the
record. -/
structure Sneaker where
  name : Option String
  brand : Option String
  retailPrice : Option ApiVal
  estimatedMarketValue : Option ApiVal
deriving DecidableEq

/-- Embedding of _format_sneaker_info: extract full name, retail price
string and market value string from a catalog record. -/
def formatSneakerInfo (s : Sneaker) : String × Option String × Option String :=
  let name := s.name.getD "Unknown Sneaker"
  let brand := s.brand.getD ""
  let fullName :=
    if brand ≠ "" ∧ pyIn (pyLower brand) (pyLower name) = false then
      brand ++ " " ++ name
    else
      name
  let priceStr :=
    match s.retailPrice with
    | some v => if v.truthy then some ("$" ++ v.pyStr) else none
    | none => none
  let marketStr :=
    match s.estimatedMarketValue with
    | some v => if v.truthy then some ("$" ++ v.pyStr) else none
    | none => none
  (fullName, priceStr, marketStr)

/-- Parsed body of a catalog search response: a dict with a results
key, a bare list, or anything else. -/
inductive NetBody
  | withResults (l : List Sneaker)
  | asList (l : List Sneaker)
  | malformed

/-- Outcome of one HTTP search attempt against the catalog API. -/
inductive NetResult
  | response (status : Nat) (body : NetBody)
  | timeout
  | failure

/-- Embedding of _search_sneaker_database: a non-200 status, a timeout,
any other exception, and an unexpected body shape all yield None; a 200
response yields the result list. -/
def searchSneakerDatabase : NetResult → Option (List Sneaker)
  | .response status body =>
    if status ≠ 200 then none
    else
      match body with
      | .withResults l => some l
      | .asList l => some l
      | .malformed => none
  | .timeout => none
  | .failure => none

/-- A non-success status (including 429) or a timeout; the failures the
spec groups as transport faults of the catalog search. -/
def isHttpFailure : NetResult → Bool
  | .response status _ => decide (status ≠ 200)
  | .timeout => true
  | .failure => false

/-- Python truthiness of a search result: None and the empty list are
falsy, a non-empty result list is truthy. -/
def truthyRes : Option (List Sneaker) → Bool
  | some (_ :: _) => true
  | _ => false

/-- The query improvement on line 197 of bot.py:
query.replace("jordan one", "air jordan 1").replace("jordan 1", "air jordan 1"). -/
def improvedQuery (q : String) : String :=
  pyReplaceStr (pyReplaceStr q "jordan one" "air jordan 1") "jordan 1" "air jordan 1"

/-- The four heuristic variations built in search_sneakers. -/
def variationList (q : String) : List String :=
  let ws := pySplit q
  [ pyStrip ("air jordan 1 " ++ (if ws.length > 1 then ws.getLastD "" else "")),
    "nike " ++ q,
    pyStrip (pyReplaceStr q "retro high" ""),
    pyStrip (pyReplaceStr q "retro" "") ]

/-- The guard in the variation loop: the variation is non-empty and
differs from both the original and the improved query. -/
def variationGuard (q improved v : String) : Bool :=
  decide (v ≠ "" ∧ v ≠ q ∧ v ≠ improved)

/-- The for loop over variations in search_sneakers: while the result
variable is falsy, each eligible variation is tried in order and its
result stored; a truthy result breaks out of the loop. -/
def tryVariations (db : String → Option (List Sneaker)) (q improved : String) :
    List String → Option (List Sneaker) → Option (List Sneaker)
  | [], results => results
  | v :: vs, results =>
    if truthyRes results then results
    else if variationGuard q improved v then
      tryVariations db q improved vs (db v)
    else
      tryVariations db q improved vs results

/-- Embedding of search_sneakers over a catalog search oracle db:
try the improved query, the original query, then the eligible
variations; format the first record of the first truthy result list. -/
def searchSneakers (db : String → Option (List Sneaker)) (q : String) :
    Option String × Option String × Option String :=
  let improved := improvedQuery q
  let r1 := db improved
  let r2 := if truthyRes r1 then r1 else db q
  let r3 := if truthyRes r2 then r2 else tryVariations db q improved (variationList q) r2
  match r3 with
  | some (s :: _) =>
    let f := formatSneakerInfo s
    (some f.1, f.2.1, f.2.2)
  | _ => (none, none, none)

/-- The closing word boundary of SKU_REGEX: after the final digit the
text must end or continue with a non-word character. -/
def tailBoundary : List Char → Bool
  | [] => true
  | c :: _ => !isWordChar c

/-- Attempted match of SKU_REGEX at the start of the suffix s, the
opening word boundary being checked by the caller.  The greedy class
run must consist of at least six characters of the class [A-Z0-9]
whose last four are digits, be followed by a hyphen and three digits,
and end at a word boundary; the matched substring is returned. -/
def matchAt (s : List Char) : Option (List Char) :=
  let r := s.takeWhile isClassChar
  if 6 ≤ r.length ∧ (r.drop (r.length - 4)).all Char.isDigit then
    match s.drop r.length with
    | '-' :: x :: y :: z :: t =>
      if x.isDigit && y.isDigit && z.isDigit && tailBoundary t then
        some (r ++ [ '-' , x, y, z ])
      else none
    | _ => none
  else none

/-- The opening word boundary \b holds before a word character exactly
when the preceding character (none at the start of the text) is not a
word character. -/
def prevOk : Option Char → Bool
  | none => true
  | some p => !isWordChar p

/-- Left-to-right scan of re.search: at each position whose preceding
character is not a word character, attempt the match; the leftmost
success wins. -/
def skuScan : Option Char → List Char → Option (List Char)
  | _, [] => none
  | prev, c :: rest =>
    if prevOk prev then
      match matchAt (c :: rest) with
      | some m => some m
      | none => skuScan (some c) rest
    else
      skuScan (some c) rest

/-- SKU_REGEX.search over a text, returning the matched substring. -/
def skuSearch (text : String) : Option String :=
  (skuScan none text.toList).map fun m => ⟨ m ⟩

/-- Embedding of extract_sku over the OCR oracle: none models an OCR
exception (caught, yielding None); otherwise the recognized text is
searched for the SKU pattern. -/
def extractSku (ocrText : Option String) : Option String :=
  ocrText.bind skuSearch

/-- The identification stage of the check command: the OCR result is
used when truthy, otherwise the vision guess. -/
def extractStage (ocrText vision : Option String) : Option String :=
  let p1 := extractSku ocrText
  if optTruthy p1 then p1 else vision

/-- The query improvement in the check command: a product name of fewer
than three words containing no digit gets the suffix " Retro High". -/
def improveGenericName (p : String) : String :=
  if (pySplit p).length < 3 ∧ ¬ p.toList.any Char.isDigit then
    p ++ " Retro High"
  else
    p

/-- The external collaborators of one check request: whether the
attachment content type starts with image/, the HTTP status of the
image download, the OCR text (none models an OCR exception), the
vision guess (none covers both an API failure and an empty web
detection), and the catalog search behaviour per query. -/
structure Oracles where
  contentTypeOk : Bool
  downloadStatus : Nat
  ocr : Option String
  vision : Option String
  net : String → NetResult

/-- The catalog search oracle induced by the network oracle. -/
def dbOf (net : String → NetResult) : String → Option (List Sneaker) :=
  fun q => searchSneakerDatabase (net q)

/-- The distinct user-visible outcomes of the check command. -/
inductive Outcome
  | notAnImage
  | downloadFailed
  | unidentified
  | priced (name : String) (retail marketValue : Option String)
  | unpriced (label : String)
deriving DecidableEq

/-- Embedding of the check command body: content type gate, image
download, extraction with vision fallback, query improvement, catalog
lookup, and the final response branches. -/
def check (o : Oracles) : Outcome :=
  if o.contentTypeOk = false then .notAnImage
  else if o.downloadStatus ≠ 200 then .downloadFailed
  else
    let product0 := extractStage o.ocr o.vision
    if optTruthy product0 = false then .unidentified
    else
      let product := improveGenericName (product0.getD "")
      let r := searchSneakers (dbOf o.net) product
      if optTruthy r.1 then .priced (r.1.getD "") r.2.1 r.2.2
      else .unpriced product

/-- The full normalization the pipeline applies to an extracted label
before the catalog lookup: the generic-name improvement of the check
command followed by the alias improvement of search_sneakers. -/
def normalizeQuery (p : String) : String := improvedQuery (improveGenericName p)

/-- Spec-side description of the Variant A retry order: the
alias-improved query, then the original query, then the eligible
heuristic variations. -/
def attemptSequence (q : String) : List String :=
  improvedQuery q :: q :: (variationList q).filter (variationGuard q (improvedQuery q))

/-- Spec-side description of the retry loop outcome: the result list of
the first attempt that yields a truthy (non-empty) result. -/
def firstNonEmptyResult (db : String → Option (List Sneaker)) :
    List String → Option (List Sneaker)
  | [] => none
  | a :: rest => if truthyRes (db a) then db a else firstNonEmptyResult db rest

/-- Spec-side description of the adapter result: the PriceInfo built
from the top entry of the result list, or the absent triple. -/
def topEntryInfo : Option (List Sneaker) → Option String × Option String × Option String
  | some (s :: _) =>
    (some (formatSneakerInfo s).1, (formatSneakerInfo s).2.1, (formatSneakerInfo s).2.2)
  | _ => (none, none, none)

/-- The PriceInfo record of the spec data model. -/
structure PriceInfo where
  canonicalName : String
  retailPrice : Option String
  marketValue : Option String

/-- The adapter outcome in the vocabulary of the spec data model: a
PriceInfo exists exactly when search_sneakers produced a truthy
canonical name, which is the test the check command applies to decide
between the priced and the unpriced response. -/
def adapterPriceInfo (db : String → Option (List Sneaker)) (q : String) :
    Option PriceInfo :=
  match searchSneakers db q with
  | (some n, rp, mv) => if n ≠ "" then some ⟨ n, rp, mv ⟩ else none
  | (none, _, _) => none

/-- A substring matching the structural SKU pattern without its word
boundaries: two or more characters of the class [A-Z0-9] of which the
last four are digits, a hyphen, and three digits. -/
def SkuShape (m : List Char) : Prop :=
  ∃ a d1 d2, m = a ++ d1 ++ '-' :: d2 ∧ 2 ≤ a.length ∧
    (∀ c ∈ a, isClassChar c = true) ∧
    d1.length = 4 ∧ (∀ c ∈ d1, c.isDigit = true) ∧
    d2.length = 3 ∧ (∀ c ∈ d2, c.isDigit = true)

/-- The text contains a substring matching the structural SKU pattern
at word boundaries: the character before the match (if any) and the
character after it (if any) are not word characters. -/
def ContainsSku (s : List Char) : Prop :=
  ∃ pre m post, s = pre ++ m ++ post ∧ SkuShape m ∧
    (pre = [] ∨ ∃ p, pre.getLast? = some p ∧ isWordChar p = false) ∧
    (post = [] ∨ ∃ c, post.head? = some c ∧ isWordChar c = false)

/-- The character preceding the current scan position: the last
character of the consumed input, or the character consumed before it
when the consumed part is empty. -/
def lastOpt (prev : Option Char) : List Char → Option Char
  | [] => prev
  | c :: rest => lastOpt (some c) rest

/-- Network fixture for the Variant A failure witness: the catalog
returns 429 for every query except the original one, which succeeds
with one record. -/
def failThenHitNet : String → NetResult :=
  fun s =>
    if s = "jordan one" then
      .response 200 (.withResults [ ⟨ some "Jordan 1 Mid", some "Air Jordan",
        some (.num 125), some (.num 180) ⟩ ])
    else
      .response 429 .malformed

lemma strMk_eq_empty_iff (l : List Char) : (⟨ l ⟩ : String) = "" ↔ l = [] := by
  constructor
  · intro h
    simpa using String.ext_iff.mp h
  · intro h
    subst h
    rfl

lemma str_eq_empty_iff (s : String) : s = "" ↔ s.toList = [] := by
  constructor
  · intro h
    subst h
    rfl
  · intro h
    exact String.ext h

lemma pyReplaceAux_id_of_not_contains (pat rep : List Char) :
    ∀ s : List Char, containsSub pat s = false → pyReplaceAux pat rep 0 s = s := by
  intro s
  induction s with
  | nil => intro _; rfl
  | cons c rest ih =>
    intro h
    rw [containsSub] at h
    rcases Bool.or_eq_false_iff.mp h with ⟨h1, h2⟩
    rw [pyReplaceAux]
    rw [h1]
    simp only [Bool.and_false, if_neg (by simp : ¬ (false = true))]
    rw [ih h2]

lemma pyReplaceAux_ne_nil (pat rep : List Char) (hrep : rep ≠ []) :
    ∀ s : List Char, s ≠ [] → pyReplaceAux pat rep 0 s ≠ [] := by
  intro s hs
  match s with
  | [] => exact absurd rfl hs
  | c :: rest =>
    rw [pyReplaceAux]
    by_cases h : (!pat.isEmpty && pat.isPrefixOf (c :: rest)) = true
    · rw [if_pos h]
      intro hnil
      exact hrep (List.append_eq_nil.mp hnil).1
    · rw [if_neg h]
      simp

lemma pyReplaceStr_id (s pat rep : String) (h : pyIn pat s = false) :
    pyReplaceStr s pat rep = s := by
  unfold pyReplaceStr pyReplace
  rw [pyReplaceAux_id_of_not_contains pat.toList rep.toList s.toList h]
  exact String.ext rfl

lemma pyReplaceStr_ne_empty (s pat rep : String) (hrep : rep ≠ "") (hs : s ≠ "") :
    pyReplaceStr s pat rep ≠ "" := by
  unfold pyReplaceStr pyReplace
  rw [Ne, strMk_eq_empty_iff]
  exact pyReplaceAux_ne_nil pat.toList rep.toList
    (fun h => hrep (str_eq_empty_iff rep |>.mpr h)) s.toList
    (fun h => hs (str_eq_empty_iff s |>.mpr h))

lemma improvedQuery_id (q : String) (h1 : pyIn "jordan one" q = false)
    (h2 : pyIn "jordan 1" q = false) : improvedQuery q = q := by
  unfold improvedQuery
  rw [pyReplaceStr_id q _ _ h1, pyReplaceStr_id q _ _ h2]

lemma improveGenericName_id_of_digit (p : String)
    (h : p.toList.any Char.isDigit = true) : improveGenericName p = p := by
  unfold improveGenericName
  rw [if_neg]
  intro hc
  exact hc.2 h

lemma improveGenericName_ne_empty (p : String) (hp : p ≠ "") :
    improveGenericName p ≠ "" := by
  unfold improveGenericName
  by_cases h : (pySplit p).length < 3 ∧ ¬ p.toList.any Char.isDigit
  · rw [if_pos h]
    intro hc
    have := str_eq_empty_iff _ |>.mp hc
    rw [show (p ++ " Retro High").toList = p.toList ++ (" Retro High").toList from rfl] at this
    have h2 := (List.append_eq_nil.mp this).2
    simp at h2
  · rw [if_neg h]
    exact hp

/-- C9: the Normalizer (the alias substitution of search_sneakers
together with the conditional suffix append of the check command)
returns a non-empty query for every non-empty label. -/
theorem normalizer_nonempty (p : String) (h : p ≠ "") : normalizeQuery p ≠ "" := by
  unfold normalizeQuery improvedQuery
  apply pyReplaceStr_ne_empty _ _ _ (by decide)
  apply pyReplaceStr_ne_empty _ _ _ (by decide)
  exact improveGenericName_ne_empty p h

/-- Witness for C9 at the concrete label of end-to-end scenario 2. -/
theorem normalizer_nonempty_witness :
    ("Air Max" : String) ≠ "" ∧ normalizeQuery "Air Max" ≠ "" :=
  ⟨ by decide, normalizer_nonempty "Air Max" (by decide) ⟩

/-- C5 counterexample: the label "air jordan 1" already contains the
canonical alias form and a digit, yet normalization is not idempotent
on it: the second alias rewrite fires again on the embedded substring
"jordan 1", prepending one more "air". -/
theorem normalizer_not_idempotent_cex :
    pyIn "air jordan 1" "air jordan 1" = true ∧
    ("air jordan 1" : String).toList.any Char.isDigit = true ∧
    normalizeQuery (normalizeQuery "air jordan 1") ≠ normalizeQuery "air jordan 1" := by
  decide

/-- C5 amended: normalization is idempotent on labels that contain a
digit and contain neither of the exact substrings "jordan one" and
"jordan 1"; on such labels it is the identity, while a label containing
the canonical form "air jordan 1" necessarily contains "jordan 1" and
gets rewritten again on every pass. -/
theorem normalizer_idempotent_amended (p : String)
    (hd : p.toList.any Char.isDigit = true)
    (h1 : pyIn "jordan one" p = false) (h2 : pyIn "jordan 1" p = false) :
    normalizeQuery (normalizeQuery p) = normalizeQuery p := by
  have hfix : normalizeQuery p = p := by
    unfold normalizeQuery
    rw [improveGenericName_id_of_digit p hd, improvedQuery_id p h1 h2]
  rw [hfix, hfix]

/-- Witness for the amended C5 at a digit-bearing label free of the
alias needles. -/
theorem normalizer_idempotent_amended_witness :
    ("dunk low 7" : String).toList.any Char.isDigit = true ∧
    normalizeQuery (normalizeQuery "dunk low 7") = normalizeQuery "dunk low 7" :=
  ⟨ by decide, normalizer_idempotent_amended "dunk low 7" (by decide) (by decide) (by decide) ⟩

/-- C6 counterexample: alias substitution is case-sensitive.  The
lowercase phrasing "jordan one" is rewritten (to "air air jordan 1",
since the second replace fires again inside the first replacement),
while the capitalized phrasing "Jordan One" passes through unchanged. -/
theorem alias_case_sensitivity_cex :
    improvedQuery "jordan one" = "air air jordan 1" ∧
    improvedQuery "Jordan One" = "Jordan One" ∧
    pyIn "air jordan 1" (improvedQuery "Jordan One") = false := by
  decide

/-- C6 amended: alias substitution only rewrites the exact lowercase
substrings "jordan one" and "jordan 1"; every label containing neither
(in particular any differently cased phrasing of them) is returned
unchanged. -/
theorem alias_substitution_case_sensitive (p : String)
    (h1 : pyIn "jordan one" p = false) (h2 : pyIn "jordan 1" p = false) :
    improvedQuery p = p :=
  improvedQuery_id p h1 h2

/-- Witness for the amended C6 at the capitalized phrasing. -/
theorem alias_substitution_case_sensitive_witness :
    improvedQuery "Jordan One" = "Jordan One" :=
  alias_substitution_case_sensitive "Jordan One" (by decide) (by decide)

lemma truthyRes_eq_true_iff (r : Option (List Sneaker)) :
    truthyRes r = true ↔ ∃ s t, r = some (s :: t) := by
  cases r with
  | none => simp [truthyRes]
  | some l => cases l <;> simp [truthyRes]

lemma truthyRes_eq_false_iff (r : Option (List Sneaker)) :
    truthyRes r = false ↔ r = none ∨ r = some [] := by
  cases r with
  | none => simp [truthyRes]
  | some l => cases l <;> simp [truthyRes]

lemma topEntryInfo_falsy (r : Option (List Sneaker)) (h : truthyRes r = false) :
    topEntryInfo r = (none, none, none) := by
  rcases truthyRes_eq_false_iff r |>.mp h with h | h <;> rw [h] <;> rfl

lemma tryVariations_of_truthy (db : String → Option (List Sneaker)) (q improved : String) :
    ∀ (vs : List String) (results : Option (List Sneaker)), truthyRes results = true →
      tryVariations db q improved vs results = results := by
  intro vs
  induction vs with
  | nil => intro results _; rfl
  | cons v vs ih =>
    intro results h
    rw [tryVariations, if_pos h]

lemma tryVariations_spec (db : String → Option (List Sneaker)) (q improved : String) :
    ∀ (vs : List String) (results : Option (List Sneaker)), truthyRes results = false →
      (firstNonEmptyResult db (vs.filter (variationGuard q improved)) = none →
        truthyRes (tryVariations db q improved vs results) = false) ∧
      (∀ l, firstNonEmptyResult db (vs.filter (variationGuard q improved)) = some l →
        tryVariations db q improved vs results = some l) := by
  intro vs
  induction vs with
  | nil =>
    intro results hr
    constructor
    · intro _
      exact hr
    · intro l hl
      simp [firstNonEmptyResult] at hl
  | cons v vs ih =>
    intro results hr
    rw [tryVariations, if_neg (by simp [hr])]
    by_cases hg : variationGuard q improved v = true
    · rw [if_pos hg, List.filter_cons, if_pos hg]
      by_cases ht : truthyRes (db v) = true
      · rw [firstNonEmptyResult, if_pos ht]
        constructor
        · intro hn
          rw [hn] at ht
          simp [truthyRes] at ht
        · intro l hl
          rw [tryVariations_of_truthy db q improved vs (db v) ht]
          exact hl
      · have ht' : truthyRes (db v) = false := by
          cases hb : truthyRes (db v)
          · rfl
          · exact absurd hb ht
        rw [firstNonEmptyResult, if_neg (by simp [ht'])]
        exact ih (db v) ht'
    · rw [if_neg hg, List.filter_cons, if_neg hg]
      exact ih results hr

lemma firstNonEmptyResult_shape (db : String → Option (List Sneaker)) :
    ∀ (seq : List String) (l : List Sneaker),
      firstNonEmptyResult db seq = some l → ∃ s t, l = s :: t := by
  intro seq
  induction seq with
  | nil =>
    intro l h
    simp [firstNonEmptyResult] at h
  | cons a rest ih =>
    intro l h
    rw [firstNonEmptyResult] at h
    by_cases ht : truthyRes (db a) = true
    · rw [if_pos ht] at h
      obtain ⟨s, t, hs⟩ := truthyRes_eq_true_iff _ |>.mp ht
      rw [hs] at h
      refine ⟨s, t, ?_⟩
      injection h with h2
      exact h2.symm
    · rw [if_neg ht] at h
      exact ih l h

lemma searchSneakers_spec (db : String → Option (List Sneaker)) (q : String) :
    searchSneakers db q = topEntryInfo (firstNonEmptyResult db (attemptSequence q)) := by
  unfold searchSneakers attemptSequence
  by_cases h1 : truthyRes (db (improvedQuery q)) = true
  · obtain ⟨s, t, h⟩ := truthyRes_eq_true_iff _ |>.mp h1
    rw [firstNonEmptyResult, if_pos h1, h]
    simp [h, truthyRes, topEntryInfo]
  · have h1' : truthyRes (db (improvedQuery q)) = false := by
      cases hb : truthyRes (db (improvedQuery q))
      · rfl
      · exact absurd hb h1
    rw [firstNonEmptyResult, if_neg (by simp [h1']), firstNonEmptyResult]
    simp only [h1', Bool.false_eq_true, if_false]
    by_cases h2 : truthyRes (db q) = true
    · obtain ⟨s, t, h⟩ := truthyRes_eq_true_iff _ |>.mp h2
      rw [if_pos h2, h]
      simp [h, truthyRes, topEntryInfo]
    · have h2' : truthyRes (db q) = false := by
        cases hb : truthyRes (db q)
        · rfl
        · exact absurd hb h2
      rw [if_neg (by simp [h2'])]
      simp only [h2', Bool.false_eq_true, if_false]
      obtain ⟨hnone, hsome⟩ :=
        tryVariations_spec db q (improvedQuery q) (variationList q) (db q) h2'
      cases hf : firstNonEmptyResult db
          ((variationList q).filter (variationGuard q (improvedQuery q))) with
      | none =>
        have hfalse := hnone hf
        rcases truthyRes_eq_false_iff _ |>.mp hfalse with hv | hv <;> rw [hv] <;> rfl
      | some l =>
        obtain ⟨s, t, hl⟩ := firstNonEmptyResult_shape db _ l hf
        rw [hsome l hf, hl]
        rfl

/-- C3: Variant A resolve tries the alias-improved query, then the
original query, then the eligible heuristic variations, in that order;
it returns the PriceInfo triple built from the top entry of the first
non-empty result list, and it returns the absent triple exactly when
every attempt in the sequence produced nothing. -/
theorem variantA_retry_order (db : String → Option (List Sneaker)) (q : String) :
    searchSneakers db q = topEntryInfo (firstNonEmptyResult db (attemptSequence q)) ∧
    (searchSneakers db q = (none, none, none) ↔
      firstNonEmptyResult db (attemptSequence q) = none) := by
  refine ⟨searchSneakers_spec db q, ?_⟩
  rw [searchSneakers_spec db q]
  constructor
  · intro h
    cases hf : firstNonEmptyResult db (attemptSequence q) with
    | none => rfl
    | some l =>
      obtain ⟨s, t, hl⟩ := firstNonEmptyResult_shape db _ l hf
      rw [hf, hl] at h
      have : (some (formatSneakerInfo s).1 : Option String) = none := congrArg Prod.fst h
      simp at this
  · intro h
    rw [h]
    rfl

lemma searchSneakerDatabase_none_of_failure (r : NetResult) (h : isHttpFailure r = true) :
    searchSneakerDatabase r = none := by
  cases r with
  | response status body =>
    have hs : status ≠ 200 := by
      simp [isHttpFailure] at h
      exact h
    simp [searchSneakerDatabase, hs]
  | timeout => rfl
  | failure => simp [isHttpFailure] at h

lemma firstNonEmptyResult_cons_falsy (db : String → Option (List Sneaker))
    (a : String) (rest : List String) (h : truthyRes (db a) = false) :
    firstNonEmptyResult db (a :: rest) = firstNonEmptyResult db rest := by
  rw [firstNonEmptyResult, if_neg]
  simp [h]

/-- C4: a non-success HTTP status (including 429) or a timeout on the
first Variant A attempt is absorbed by _search_sneaker_database into
None (no exception escapes the total embedded function), and resolve
continues exactly as the retry sequence without the failed first
attempt: the remaining candidate queries decide the outcome. -/
theorem variantA_http_failure_continues (net : String → NetResult) (q : String)
    (h : isHttpFailure (net (improvedQuery q)) = true) :
    dbOf net (improvedQuery q) = none ∧
    searchSneakers (dbOf net) q =
      topEntryInfo (firstNonEmptyResult (dbOf net)
        (q :: (variationList q).filter (variationGuard q (improvedQuery q)))) := by
  have hn : dbOf net (improvedQuery q) = none :=
    searchSneakerDatabase_none_of_failure _ h
  refine ⟨hn, ?_⟩
  rw [searchSneakers_spec]
  unfold attemptSequence
  rw [firstNonEmptyResult_cons_falsy _ _ _ (by rw [hn]; rfl)]

/-- Witness for C4: the catalog answers 429 on the improved query and
succeeds on the original query; resolve continues past the failure and
the remaining attempts decide the outcome. -/
theorem variantA_http_failure_continues_witness :
    dbOf failThenHitNet (improvedQuery "jordan one") = none ∧
    searchSneakers (dbOf failThenHitNet) "jordan one" =
      topEntryInfo (firstNonEmptyResult (dbOf failThenHitNet)
        ("jordan one" :: (variationList "jordan one").filter
          (variationGuard "jordan one" (improvedQuery "jordan one")))) :=
  variantA_http_failure_continues failThenHitNet "jordan one" (by decide)

/-- C7 counterexample: a catalog record whose name key is present but
empty and whose brand is absent is formatted to an empty canonical
name, and the adapter passes that empty name through, contradicting
the invariant that the canonical name is non-empty for every shape of
catalog record. -/
theorem canonical_name_nonempty_cex :
    (formatSneakerInfo ⟨ some "", none, none, none ⟩).1 = "" ∧
    searchSneakers (fun _ => some [ ⟨ some "", none, none, none ⟩ ]) "query" =
      (some "", none, none) := by
  decide

/-- C7 amended: the canonical name is non-empty for every catalog
record except those whose name key is present but empty while the
brand is absent or empty; a missing name key falls back to the
non-empty default and a non-empty brand is always prepended or already
contained in a non-empty name. -/
theorem canonical_name_nonempty_amended (s : Sneaker)
    (h : s.name ≠ some "" ∨ ∃ b, s.brand = some b ∧ b ≠ "") :
    (formatSneakerInfo s).1 ≠ "" := by
  unfold formatSneakerInfo
  simp only []
  by_cases hc : s.brand.getD "" ≠ "" ∧
      pyIn (pyLower (s.brand.getD "")) (pyLower (s.name.getD "Unknown Sneaker")) = false
  · rw [if_pos hc]
    intro hemp
    have hl : (s.brand.getD "").toList ++ [ ' ' ]
        ++ (s.name.getD "Unknown Sneaker").toList = [] :=
      str_eq_empty_iff _ |>.mp hemp
    have h2 := (List.append_eq_nil.mp ((List.append_eq_nil.mp hl).1)).2
    simp at h2
  · rw [if_neg hc]
    rcases h with hn | ⟨b, hb, hbne⟩
    · cases hname : s.name with
      | none => simp [hname]
      | some n =>
        have : n ≠ "" := by
          intro he
          exact hn (by rw [hname, he])
        simpa [hname] using this
    · push_neg at hc
      have hbrand : s.brand.getD "" = b := by rw [hb]; rfl
      have hbne' : s.brand.getD "" ≠ "" := by rw [hbrand]; exact hbne
      have hin : pyIn (pyLower (s.brand.getD ""))
          (pyLower (s.name.getD "Unknown Sneaker")) = true := by
        cases hi : pyIn (pyLower (s.brand.getD ""))
            (pyLower (s.name.getD "Unknown Sneaker"))
        · exact absurd hi (hc hbne')
        · rfl
      intro hemp
      have hnil := str_eq_empty_iff _ |>.mp hemp
      have hin2 : containsSub (pyLower (s.brand.getD "")).toList
          ((s.name.getD "Unknown Sneaker").toList.map Char.toLower) = true := hin
      rw [hnil] at hin2
      simp only [containsSub, List.isEmpty_iff] at hin2
      have hblist : (s.brand.getD "").toList.map Char.toLower = [] := hin2
      have : (s.brand.getD "").toList = [] := List.map_eq_nil_iff.mp hblist
      exact hbne' (str_eq_empty_iff _ |>.mpr this)

/-- Witness for the amended C7 at a record with a non-empty name. -/
theorem canonical_name_nonempty_amended_witness :
    (formatSneakerInfo ⟨ some "Jordan 1 Retro", some "Jordan", none, none ⟩).1 ≠ "" :=
  canonical_name_nonempty_amended _ (Or.inl (by decide))

/-- C10: a monetary field of the formatted result is present only when
the underlying record field is present and truthy; a present but falsy
value (0, empty string, or null) is reported as no price. -/
theorem falsy_price_reported_absent (s : Sneaker) (v : ApiVal) :
    (s.retailPrice = some v → v.truthy = false → (formatSneakerInfo s).2.1 = none) ∧
    (s.estimatedMarketValue = some v → v.truthy = false →
      (formatSneakerInfo s).2.2 = none) ∧
    ((formatSneakerInfo s).2.1 ≠ none →
      ∃ w, s.retailPrice = some w ∧ w.truthy = true) ∧
    ((formatSneakerInfo s).2.2 ≠ none →
      ∃ w, s.estimatedMarketValue = some w ∧ w.truthy = true) := by
  refine ⟨?_, ?_, ?_, ?_⟩
  · intro h hf
    simp [formatSneakerInfo, h, hf]
  · intro h hf
    simp [formatSneakerInfo, h, hf]
  · intro hne
    cases hrp : s.retailPrice with
    | none => simp [formatSneakerInfo, hrp] at hne
    | some w =>
      cases ht : w.truthy
      · simp [formatSneakerInfo, hrp, ht] at hne
      · exact ⟨w, rfl, ht⟩
  · intro hne
    cases hrp : s.estimatedMarketValue with
    | none => simp [formatSneakerInfo, hrp] at hne
    | some w =>
      cases ht : w.truthy
      · simp [formatSneakerInfo, hrp, ht] at hne
      · exact ⟨w, rfl, ht⟩

/-- Witness for C10: a record with a genuine zero retail price and an
empty market value string is reported with both prices absent. -/
theorem falsy_price_reported_absent_witness :
    (formatSneakerInfo ⟨ some "Dunk", none, some (.num 0), some (.str "") ⟩).2.1 = none ∧
    (formatSneakerInfo ⟨ some "Dunk", none, some (.num 0), some (.str "") ⟩).2.2 = none :=
  ⟨ (falsy_price_reported_absent _ (.num 0)).1 rfl rfl,
    (falsy_price_reported_absent _ (.str "")).2.1 rfl rfl ⟩

/-- C1: with the image downloaded, the check command returns exactly
one of the three resolution outcomes in pipeline order: Unidentified
when the extraction stage yields no (truthy) label; Identified+Priced
with the PriceInfo fields when a label is found and the adapter yields
a PriceInfo; Identified+Unpriced when a label is found but the adapter
yields none. -/
theorem resolution_three_outcomes (o : Oracles)
    (hc : o.contentTypeOk = true) (hd : o.downloadStatus = 200) :
    (optTruthy (extractStage o.ocr o.vision) = false → check o = .unidentified) ∧
    (∀ s, extractStage o.ocr o.vision = some s → s ≠ "" →
      (∀ pi, adapterPriceInfo (dbOf o.net) (improveGenericName s) = some pi →
        check o = .priced pi.canonicalName pi.retailPrice pi.marketValue) ∧
      (adapterPriceInfo (dbOf o.net) (improveGenericName s) = none →
        check o = .unpriced (improveGenericName s))) := by
  constructor
  · intro h
    unfold check
    rw [if_neg (by simp [hc]), if_neg (by simp [hd]), if_pos h]
  · intro s hs hne
    rcases hr : searchSneakers (dbOf o.net) (improveGenericName s) with ⟨n, rp, mv⟩
    have hck : check o =
        (if optTruthy n then Outcome.priced (n.getD "") rp mv
         else Outcome.unpriced (improveGenericName s)) := by
      unfold check
      rw [if_neg (by simp [hc]), if_neg (by simp [hd]), hs,
        if_neg (by simp [optTruthy, hne])]
      simp only [Option.getD_some]
      rw [hr]
    cases n with
    | none =>
      have had : adapterPriceInfo (dbOf o.net) (improveGenericName s) = none := by
        simp [adapterPriceInfo, hr]
      constructor
      · intro pi hpi
        rw [had] at hpi
        cases hpi
      · intro _
        rw [hck, if_neg (by simp [optTruthy])]
    | some nm =>
      by_cases hn : nm = ""
      · have had : adapterPriceInfo (dbOf o.net) (improveGenericName s) = none := by
          simp [adapterPriceInfo, hr, hn]
        constructor
        · intro pi hpi
          rw [had] at hpi
          cases hpi
        · intro _
          rw [hck, if_neg (by simp [optTruthy, hn])]
      · have had : adapterPriceInfo (dbOf o.net) (improveGenericName s)
            = some ⟨ nm, rp, mv ⟩ := by
          simp [adapterPriceInfo, hr, hn]
        constructor
        · intro pi hpi
          rw [had] at hpi
          injection hpi with hpi2
          rw [← hpi2]
          rw [hck, if_pos (by simp [optTruthy, hn])]
          rfl
        · intro hnone
          rw [had] at hnone
          cases hnone

/-- Witness for C1 exercising the Unidentified branch: OCR text with
no SKU and no vision guess. -/
theorem resolution_three_outcomes_witness :
    check ⟨ true, 200, some "hello world", none, fun _ => .timeout ⟩ =
      Outcome.unidentified :=
  (resolution_three_outcomes ⟨ true, 200, some "hello world", none, fun _ => .timeout ⟩
    rfl rfl).1 (by decide)

/-- C8: when the image download answers with a non-success status, the
check command aborts with the system-error outcome for the failed
download; in particular the caller does not receive Unidentified, and
the outcome is fixed before the extraction oracles are ever consulted
(it is the same for every OCR, vision and catalog behaviour). -/
theorem download_failure_aborts (o : Oracles)
    (hc : o.contentTypeOk = true) (hd : o.downloadStatus ≠ 200) :
    check o = .downloadFailed ∧ check o ≠ .unidentified := by
  have hck : check o = .downloadFailed := by
    unfold check
    rw [if_neg (by simp [hc]), if_pos hd]
  refine ⟨hck, ?_⟩
  rw [hck]
  intro hcontra
  cases hcontra

/-- Witness for C8: a 503 download status aborts the request even
though the OCR text contains a perfectly valid SKU. -/
theorem download_failure_aborts_witness :
    check ⟨ true, 503, some "CJ0581-401", some "Air Max", fun _ => .timeout ⟩ =
      Outcome.downloadFailed ∧
    check ⟨ true, 503, some "CJ0581-401", some "Air Max", fun _ => .timeout ⟩ ≠
      Outcome.unidentified :=
  download_failure_aborts ⟨ true, 503, some "CJ0581-401", some "Air Max",
    fun _ => .timeout ⟩ rfl (by decide)

lemma containsSub_of_isPrefixOf (pat s : List Char) (h : pat.isPrefixOf s = true) :
    containsSub pat s = true := by
  cases s with
  | nil =>
    cases pat with
    | nil => rfl
    | cons c t => simp [List.isPrefixOf] at h
  | cons c rest => simp [containsSub, h]

lemma containsSub_cons (pat : List Char) (c : Char) (rest : List Char)
    (h : containsSub pat rest = true) : containsSub pat (c :: rest) = true := by
  simp [containsSub, h]

lemma takeWhile_append_of (p : Char → Bool) :
    ∀ (l t : List Char), (∀ c ∈ l, p c = true) →
      (t = [] ∨ ∃ c t2, t = c :: t2 ∧ p c = false) →
      (l ++ t).takeWhile p = l := by
  intro l
  induction l with
  | nil =>
    intro t _ ht
    rcases ht with rfl | ⟨c, t2, rfl, hc⟩
    · rfl
    · simp [List.takeWhile_cons, hc]
  | cons a l ih =>
    intro t hl ht
    have ha : p a = true := hl a (by simp)
    simp only [List.cons_append, List.takeWhile_cons, ha, if_true]
    rw [ih t (fun c hc => hl c (by simp [hc])) ht]

lemma drop_takeWhile_length (p : Char → Bool) :
    ∀ s : List Char, s.drop (s.takeWhile p).length = s.dropWhile p := by
  intro s
  induction s with
  | nil => rfl
  | cons c rest ih =>
    by_cases hp : p c = true
    · simp [List.takeWhile_cons, List.dropWhile_cons, hp, ih]
    · have hp' : p c = false := by
        cases hb : p c
        · rfl
        · exact absurd hb hp
      simp [List.takeWhile_cons, List.dropWhile_cons, hp']

lemma matchAt_of_shape (a d1 d2 post : List Char)
    (ha2 : 2 ≤ a.length) (haC : ∀ c ∈ a, isClassChar c = true)
    (hd1len : d1.length = 4) (hd1 : ∀ c ∈ d1, c.isDigit = true)
    (hd2len : d2.length = 3) (hd2 : ∀ c ∈ d2, c.isDigit = true)
    (hpost : post = [] ∨ ∃ c, post.head? = some c ∧ isWordChar c = false) :
    matchAt ((a ++ d1 ++ '-' :: d2) ++ post) = some (a ++ d1 ++ '-' :: d2) := by
  obtain ⟨x, y, z, rfl⟩ := List.length_eq_three.mp hd2len
  have hclass : ∀ c ∈ a ++ d1, isClassChar c = true := by
    intro c hc
    rcases List.mem_append.mp hc with h | h
    · exact haC c h
    · have := hd1 c h
      simp [isClassChar, this]
  have harr : (a ++ d1 ++ '-' :: [x, y, z]) ++ post
      = (a ++ d1) ++ ('-' :: (x :: y :: z :: post)) := by
    simp [List.append_assoc]
  rw [harr]
  have hr : ((a ++ d1) ++ ('-' :: (x :: y :: z :: post))).takeWhile isClassChar
      = a ++ d1 :=
    takeWhile_append_of isClassChar (a ++ d1) _ hclass
      (Or.inr ⟨ '-' , _, rfl, by decide⟩)
  have hlen : (a ++ d1).length = a.length + 4 := by
    rw [List.length_append, hd1len]
  have hc1 : 6 ≤ (((a ++ d1) ++ ('-' :: (x :: y :: z :: post))).takeWhile
      isClassChar).length := by
    rw [hr, hlen]
    omega
  have hc2 : ((((a ++ d1) ++ ('-' :: (x :: y :: z :: post))).takeWhile isClassChar).drop
      ((((a ++ d1) ++ ('-' :: (x :: y :: z :: post))).takeWhile isClassChar).length - 4)).all
      Char.isDigit = true := by
    rw [hr, hlen]
    have h4 : a.length + 4 - 4 = a.length := by omega
    rw [h4, List.drop_left]
    exact List.all_eq_true.mpr hd1
  have hdrop : ((a ++ d1) ++ ('-' :: (x :: y :: z :: post))).drop
      (((a ++ d1) ++ ('-' :: (x :: y :: z :: post))).takeWhile isClassChar).length
      = '-' :: (x :: y :: z :: post) := by
    rw [hr]
    exact List.drop_left _ _
  have hx : x.isDigit = true := hd2 x (by simp)
  have hy : y.isDigit = true := hd2 y (by simp)
  have hz : z.isDigit = true := hd2 z (by simp)
  have hb : tailBoundary post = true := by
    rcases hpost with rfl | ⟨c, hh, hw⟩
    · rfl
    · cases post with
      | nil => rfl
      | cons c2 t2 =>
        have hcc : c2 = c := by
          simpa using hh
        subst hcc
        simp [tailBoundary, hw]
  simp only [matchAt]
  rw [if_pos ⟨hc1, hc2⟩, hdrop]
  simp only [hx, hy, hz, hb, Bool.and_true, Bool.and_self, if_true]
  rw [hr]

lemma matchAt_inv (s m : List Char) (h : matchAt s = some m) :
    SkuShape m ∧ ∃ t, s = m ++ t := by
  simp only [matchAt] at h
  by_cases hcond : 6 ≤ (s.takeWhile isClassChar).length ∧
      ((s.takeWhile isClassChar).drop ((s.takeWhile isClassChar).length - 4)).all
        Char.isDigit = true
  · rw [if_pos hcond] at h
    obtain ⟨h6, hdig⟩ := hcond
    have hsplit : s.takeWhile isClassChar ++ s.drop (s.takeWhile isClassChar).length
        = s := by
      rw [drop_takeWhile_length]
      exact List.takeWhile_append_dropWhile isClassChar s
    split at h
    next x y z t heq =>
      split at h
      next hc =>
        injection h with hm
        obtain ⟨hx, hy, hz, hbdry⟩ : x.isDigit = true ∧ y.isDigit = true ∧
            z.isDigit = true ∧ tailBoundary t = true := by
          simp only [Bool.and_eq_true] at hc
          exact ⟨hc.1.1.1, hc.1.1.2, hc.1.2, hc.2⟩
        refine ⟨⟨(s.takeWhile isClassChar).take ((s.takeWhile isClassChar).length - 4),
          (s.takeWhile isClassChar).drop ((s.takeWhile isClassChar).length - 4),
          [x, y, z], ?_, ?_, ?_, ?_, ?_, ?_, ?_⟩, ⟨t, ?_⟩⟩
        · rw [← hm, List.take_append_drop]
        · rw [List.length_take]
          omega
        · intro c hcmem
          exact List.mem_takeWhile_imp (List.take_subset _ _ hcmem)
        · rw [List.length_drop]
          omega
        · exact List.all_eq_true.mp hdig
        · rfl
        · intro c hcmem
          simp only [List.mem_cons, List.not_mem_nil, or_false] at hcmem
          rcases hcmem with rfl | rfl | rfl
          · exact hx
          · exact hy
          · exact hz
        · rw [← hm]
          conv_lhs => rw [← hsplit, heq]
          simp [List.append_assoc]
      next => cases h
    next => cases h
  · rw [if_neg hcond] at h
    cases h

lemma skuScan_sound : ∀ (s : List Char) (prev : Option Char) (m : List Char),
    skuScan prev s = some m → SkuShape m ∧ containsSub m s = true := by
  intro s
  induction s with
  | nil =>
    intro prev m h
    cases h
  | cons c rest ih =>
    intro prev m h
    rw [skuScan] at h
    by_cases hp : prevOk prev = true
    · rw [if_pos hp] at h
      cases hm : matchAt (c :: rest) with
      | some m2 =>
        rw [hm] at h
        injection h with h2
        subst h2
        obtain ⟨hshape, t, hpre⟩ := matchAt_inv _ _ hm
        refine ⟨hshape, ?_⟩
        have hpref : List.isPrefixOf m2 (c :: rest) = true :=
          List.isPrefixOf_iff_prefix.mpr ⟨t, hpre.symm⟩
        exact containsSub_of_isPrefixOf _ _ hpref
      | none =>
        rw [hm] at h
        obtain ⟨hs, hcsub⟩ := ih (some c) m h
        exact ⟨hs, containsSub_cons _ _ _ hcsub⟩
    · rw [if_neg hp] at h
      obtain ⟨hs, hcsub⟩ := ih (some c) m h
      exact ⟨hs, containsSub_cons _ _ _ hcsub⟩

lemma skuScan_isSome : ∀ (l : List Char) (prev : Option Char) (rest : List Char),
    prevOk (lastOpt prev l) = true → (matchAt rest).isSome = true →
    (skuScan prev (l ++ rest)).isSome = true := by
  intro l
  induction l with
  | nil =>
    intro prev rest hb hm
    cases rest with
    | nil => exact absurd hm (by decide)
    | cons c r2 =>
      have hb2 : prevOk prev = true := hb
      rw [List.nil_append, skuScan, if_pos hb2]
      cases hmm : matchAt (c :: r2) with
      | some m => simp
      | none =>
        rw [hmm] at hm
        simp at hm
  | cons a l ih =>
    intro prev rest hb hm
    rw [List.cons_append, skuScan]
    by_cases hp : prevOk prev = true
    · rw [if_pos hp]
      cases hmm : matchAt (a :: (l ++ rest)) with
      | some m => simp
      | none => exact ih (some a) rest hb hm
    · rw [if_neg hp]
      exact ih (some a) rest hb hm

lemma lastOpt_getLast : ∀ (l : List Char), l ≠ [] → ∀ (prev : Option Char),
    lastOpt prev l = l.getLast? := by
  intro l
  induction l with
  | nil =>
    intro h
    exact absurd rfl h
  | cons a l ih =>
    intro _ prev
    cases l with
    | nil => rfl
    | cons b l2 =>
      rw [show lastOpt prev (a :: b :: l2) = lastOpt (some a) (b :: l2) from rfl]
      rw [ih (by simp) (some a), List.getLast?_cons_cons]

/-- C2: when the recognized text contains a substring matching the
structural SKU pattern at word boundaries, extract_sku returns a
matching substring of the text verbatim (the leftmost match of the
scan), and the identification stage returns it unchanged for every
behaviour of the visual-search fallback: the fallback result is never
consulted. -/
theorem sku_pattern_precedes_vision (text : String) (h : ContainsSku text.toList) :
    ∃ m : String, skuSearch text = some m ∧ m ≠ "" ∧ SkuShape m.toList ∧
      containsSub m.toList text.toList = true ∧
      ∀ vision, extractStage (some text) vision = some m := by
  obtain ⟨pre, mm, post, hsplit, hshape, hb1, hb2⟩ := h
  have hmatch : matchAt (mm ++ post) = some mm := by
    obtain ⟨a, d1, d2, rfl, ha2, haC, hd1len, hd1, hd2len, hd2⟩ := hshape
    exact matchAt_of_shape a d1 d2 post ha2 haC hd1len hd1 hd2len hd2 hb2
  have hprev : prevOk (lastOpt none pre) = true := by
    rcases hb1 with rfl | ⟨p, hp, hw⟩
    · rfl
    · have hne : pre ≠ [] := by
        intro hnil
        rw [hnil] at hp
        cases hp
      rw [lastOpt_getLast pre hne none, hp]
      simp [prevOk, hw]
  have hsome : (skuScan none text.toList).isSome = true := by
    rw [hsplit, List.append_assoc]
    exact skuScan_isSome pre none (mm ++ post) hprev (by rw [hmatch]; rfl)
  cases hscan : skuScan none text.toList with
  | none =>
    rw [hscan] at hsome
    simp at hsome
  | some m0 =>
    obtain ⟨hsh, hcs⟩ := skuScan_sound text.toList none m0 hscan
    have hne0 : m0 ≠ [] := by
      obtain ⟨a, d1, d2, hm, _⟩ := hsh
      intro hnil
      rw [hm] at hnil
      have := List.append_eq_nil.mp hnil
      simp at this
    refine ⟨⟨m0⟩, ?_, ?_, hsh, hcs, ?_⟩
    · rw [skuSearch, hscan]
      rfl
    · rw [Ne, strMk_eq_empty_iff]
      exact hne0
    · intro vision
      have hsku : extractSku (some text) = some ⟨m0⟩ := by
        show skuSearch text = some ⟨m0⟩
        rw [skuSearch, hscan]
        rfl
      unfold extractStage
      rw [hsku]
      rw [if_pos]
      simp only [optTruthy, decide_eq_true_eq]
      rw [Ne, strMk_eq_empty_iff]
      exact hne0

/-- Witness for C2: the OCR text of end-to-end scenario 1 containing
the SKU CJ0581-401 between non-word characters. -/
theorem sku_pattern_precedes_vision_witness :
    ∃ m : String, skuSearch "sku CJ0581-401 box" = some m ∧ m ≠ "" ∧
      SkuShape m.toList ∧
      containsSub m.toList ("sku CJ0581-401 box" : String).toList = true ∧
      ∀ vision, extractStage (some "sku CJ0581-401 box") vision = some m :=
  sku_pattern_precedes_vision "sku CJ0581-401 box"
    ⟨("sku " : String).toList, ("CJ0581-401" : String).toList,
      (" box" : String).toList, by decide,
      ⟨("CJ" : String).toList, ("0581" : String).toList, ("401" : String).toList,
        by decide, by decide, by decide, by decide, by decide, by decide, by decide⟩,
      Or.inr ⟨ ' ' , by decide, by decide⟩,
      Or.inr ⟨ ' ' , by decide, by decide⟩⟩
